import Mathlib

/-!
Verification of the travel-buddy place-ranking / filtering / context core.

The definitions below are shallow embeddings of the Python sources:
* `src/services/place_ranker.py`   — `calculate_score`, `sort_places_by_quality`
* `src/services/place_filter.py`   — `filter_by_category`
* `src/services/rate_limiter.py`   — `wait_if_needed`
* `src/services/context_manager.py` — `add_message`, `get_context_messages`
* `src/services/google_places_service.py` — `search_places` (per-term search
  loop, de-duplication, filtering, sorting, truncation)
* `src/services/azure_openai_service.py` — `generate_travel_recommendations`

Python floats are modelled as real numbers; rating literals carried by place
records are rationals so record-level operations stay executable.  Machine
time (`time.time()` / `time.sleep`) is modelled by an explicit clock: a call
receives the wall-clock instant `t` at which it starts, and sleeping advances
an accumulator, so the instant returned by a later `time.time()` read is
`t` plus the total sleep performed so far.
-/

namespace TravelBuddy

open List

/-- A place record as produced by the geo-search provider.  `rating` is
`none` when the key is absent (`place.get('rating', 0)` then yields 0);
`userRatingsTotal` models `place.get('user_ratings_total', 0)`, and
`placeId` is `none` when the `place_id` key is missing. -/
structure Place where
  placeId : Option String
  name : String
  rating : Option ℚ
  userRatingsTotal : ℕ
  types : List String
  vicinity : String
deriving DecidableEq

/-! ## PlaceRanker.calculate_score (src/services/place_ranker.py lines 7-33) -/

/-- Embedding of `PlaceRanker.calculate_score`.  Mirrors the Python body:
rating and review total are read with defaults, the rating is doubled, a
logarithmic popularity bonus capped at 5 is added for positive review
counts, and the sum is scaled by a credibility factor of 0.5 / 0.75 / 1.0
depending on the review count. -/
noncomputable def calculate_score (place : Place) : ℝ :=
  let rating : ℚ := place.rating.getD 0
  let user_ratings_total : ℕ := place.userRatingsTotal
  let rating_score : ℝ := (rating : ℝ) * 2
  let popularity_bonus : ℝ :=
    if 0 < user_ratings_total then
      min (Real.logb 10 ((user_ratings_total : ℝ) + 1) * 2) 5
    else 0
  let credibility_factor : ℝ :=
    if user_ratings_total < 50 then 0.5
    else if user_ratings_total < 100 then 0.75
    else 1.0
  (rating_score + popularity_bonus) * credibility_factor

/-- Modelled from the spec wording: `rating_score = rating × 2` (rating
defaults to 0 when absent). -/
noncomputable def spec_rating_score (place : Place) : ℝ :=
  ((place.rating.getD 0 : ℚ) : ℝ) * 2

/-- Modelled from the spec wording: `popularity_bonus =
min(log10(review_count + 1) × 2, 5)` when review_count > 0, else 0. -/
noncomputable def spec_popularity_bonus (place : Place) : ℝ :=
  if place.userRatingsTotal > 0 then
    min (Real.logb 10 ((place.userRatingsTotal : ℝ) + 1) * 2) 5
  else 0

/-- Modelled from the spec wording: `credibility_factor` is 0.5 when
review_count < 50, 0.75 when 50 ≤ review_count < 100, and 1.0 otherwise. -/
noncomputable def spec_credibility_factor (place : Place) : ℝ :=
  if place.userRatingsTotal < 50 then 0.5
  else if 50 ≤ place.userRatingsTotal ∧ place.userRatingsTotal < 100 then 0.75
  else 1.0

/-- C1: for every place, `calculate_score` returns exactly
`(rating_score + popularity_bonus) * credibility_factor` with the three
components as the spec states them. -/
theorem calculate_score_matches_spec_formula (place : Place) :
    calculate_score place =
      (spec_rating_score place + spec_popularity_bonus place) *
        spec_credibility_factor place := by
  unfold calculate_score spec_rating_score spec_popularity_bonus spec_credibility_factor
  by_cases h50 : place.userRatingsTotal < 50
  · simp [h50]
  · by_cases h100 : place.userRatingsTotal < 100
    · simp [h50, h100, Nat.le_of_not_lt h50]
    · simp only [h50, h100, if_false]
      have : ¬ (50 ≤ place.userRatingsTotal ∧ place.userRatingsTotal < 100) := by
        intro hc
        exact h100 hc.2
      simp [this]

/-! ## Monotonicity of the score (claim C9) -/

/-- The popularity-bonus component of `calculate_score`, as a function of
the review count alone. -/
noncomputable def popBonus (n : ℕ) : ℝ :=
  if 0 < n then min (Real.logb 10 ((n : ℝ) + 1) * 2) 5 else 0

/-- The credibility-factor component of `calculate_score`, as a function of
the review count alone. -/
noncomputable def credFactor (n : ℕ) : ℝ :=
  if n < 50 then 0.5 else if n < 100 then 0.75 else 1.0

theorem calculate_score_eq (p : Place) :
    calculate_score p =
      (((p.rating.getD 0 : ℚ) : ℝ) * 2 + popBonus p.userRatingsTotal) *
        credFactor p.userRatingsTotal := rfl

theorem popBonus_nonneg (n : ℕ) : 0 ≤ popBonus n := by
  unfold popBonus
  split
  · refine le_min ?_ (by norm_num)
    have h0 : (0 : ℝ) ≤ (n : ℝ) := Nat.cast_nonneg n
    have h1 : (0 : ℝ) ≤ Real.logb 10 ((n : ℝ) + 1) :=
      Real.logb_nonneg (by norm_num) (by linarith)
    linarith
  · exact le_rfl

theorem popBonus_mono {n₁ n₂ : ℕ} (h : n₁ ≤ n₂) : popBonus n₁ ≤ popBonus n₂ := by
  rcases Nat.eq_zero_or_pos n₁ with h0 | hpos
  · subst h0
    simpa [popBonus] using popBonus_nonneg n₂
  · have hpos₂ : 0 < n₂ := lt_of_lt_of_le hpos h
    unfold popBonus
    rw [if_pos hpos, if_pos hpos₂]
    refine min_le_min ?_ le_rfl
    have : ((n₁ : ℝ) + 1) ≤ ((n₂ : ℝ) + 1) := by
      have := (Nat.cast_le (α := ℝ)).mpr h
      linarith
    have := Real.logb_le_logb_of_le (b := 10) (by norm_num)
      (x := (n₁ : ℝ) + 1) (by positivity) this
    linarith

theorem credFactor_nonneg (n : ℕ) : 0 ≤ credFactor n := by
  unfold credFactor
  split
  · norm_num
  · split <;> norm_num

theorem credFactor_mono {n₁ n₂ : ℕ} (h : n₁ ≤ n₂) : credFactor n₁ ≤ credFactor n₂ := by
  unfold credFactor
  split_ifs
  all_goals try norm_num
  all_goals omega

/-- C9: `calculate_score` is monotonically non-decreasing in the rating with
the review count held fixed, and non-decreasing in the review count with the
rating held fixed, on ratings in [0, 5]. -/
theorem calculate_score_monotone :
    (∀ (r₁ r₂ : ℚ) (n : ℕ) (p q : Place),
      p.rating = some r₁ → q.rating = some r₂ →
      p.userRatingsTotal = n → q.userRatingsTotal = n →
      0 ≤ r₁ → r₁ ≤ r₂ → r₂ ≤ 5 →
      calculate_score p ≤ calculate_score q) ∧
    (∀ (r : ℚ) (n₁ n₂ : ℕ) (p q : Place),
      p.rating = some r → q.rating = some r →
      p.userRatingsTotal = n₁ → q.userRatingsTotal = n₂ →
      0 ≤ r → r ≤ 5 → n₁ ≤ n₂ →
      calculate_score p ≤ calculate_score q) := by
  constructor
  · intro r₁ r₂ n p q hp hq hpn hqn _ hr _
    rw [calculate_score_eq, calculate_score_eq, hp, hq, hpn, hqn]
    simp only [Option.getD_some]
    have hr' : ((r₁ : ℚ) : ℝ) ≤ ((r₂ : ℚ) : ℝ) := by exact_mod_cast hr
    have hc := credFactor_nonneg n
    have hmul : ((r₁ : ℚ) : ℝ) * 2 + popBonus n ≤ ((r₂ : ℚ) : ℝ) * 2 + popBonus n := by
      linarith
    exact mul_le_mul_of_nonneg_right hmul hc
  · intro r n₁ n₂ p q hp hq hpn hqn hr _ hn
    rw [calculate_score_eq, calculate_score_eq, hp, hq, hpn, hqn]
    simp only [Option.getD_some]
    have hr' : (0 : ℝ) ≤ ((r : ℚ) : ℝ) := by exact_mod_cast hr
    have h1 : ((r : ℚ) : ℝ) * 2 + popBonus n₁ ≤ ((r : ℚ) : ℝ) * 2 + popBonus n₂ := by
      have := popBonus_mono hn
      linarith
    have h2 : (0 : ℝ) ≤ ((r : ℚ) : ℝ) * 2 + popBonus n₂ := by
      have := popBonus_nonneg n₂
      linarith
    have h3 : (0 : ℝ) ≤ credFactor n₁ := credFactor_nonneg n₁
    have h4 : credFactor n₁ ≤ credFactor n₂ := credFactor_mono hn
    simpa using mul_le_mul h1 h4 h3 h2

/-- Concrete instantiation of `calculate_score_monotone`. -/
theorem calculate_score_monotone_witness :
    calculate_score ⟨none, "a", some 1, 7, [], "v"⟩ ≤
      calculate_score ⟨none, "a", some 2, 7, [], "v"⟩ ∧
    calculate_score ⟨none, "a", some 3, 10, [], "v"⟩ ≤
      calculate_score ⟨none, "a", some 3, 60, [], "v"⟩ := by
  constructor
  · exact calculate_score_monotone.1 1 2 7
      ⟨none, "a", some 1, 7, [], "v"⟩ ⟨none, "a", some 2, 7, [], "v"⟩
      rfl rfl rfl rfl (by norm_num) (by norm_num) (by norm_num)
  · exact calculate_score_monotone.2 3 10 60
      ⟨none, "a", some 3, 10, [], "v"⟩ ⟨none, "a", some 3, 60, [], "v"⟩
      rfl rfl rfl rfl (by norm_num) (by norm_num) (by norm_num)

/-! ## PlaceRanker.sort_places_by_quality (src/services/place_ranker.py lines 35-50) -/

/-- The key the Python `sort_key` closure returns:
`(-score, -rating, -review_count)` (negated for descending order). -/
noncomputable def sort_key (p : Place) : ℝ × ℚ × ℤ :=
  (-(calculate_score p), (-(p.rating.getD 0) : ℚ), -(p.userRatingsTotal : ℤ))

/-- Python tuple comparison (ascending lexicographic, length-3 tuples). -/
def tripleLe (a b : ℝ × ℚ × ℤ) : Prop :=
  a.1 < b.1 ∨ (a.1 = b.1 ∧ (a.2.1 < b.2.1 ∨ (a.2.1 = b.2.1 ∧ a.2.2 ≤ b.2.2)))

/-- The element comparison the embedded `sorted(places, key=sort_key)` uses. -/
noncomputable def keyLeB (a b : Place) : Bool :=
  @decide (tripleLe (sort_key a) (sort_key b)) (Classical.propDecidable _)

/-- Embedding of `PlaceRanker.sort_places_by_quality`: Python's stable
`sorted` on the negated key tuples, modelled by the stable `List.mergeSort`. -/
noncomputable def sort_places_by_quality (places : List Place) : List Place :=
  places.mergeSort keyLeB

/-- The ordering the spec describes: descending lexicographically by
`(calculate_score, rating, review_count)`. -/
def specDescLe (a b : Place) : Prop :=
  calculate_score b < calculate_score a ∨
  (calculate_score a = calculate_score b ∧
    (b.rating.getD 0 < a.rating.getD 0 ∨
      (a.rating.getD 0 = b.rating.getD 0 ∧ b.userRatingsTotal ≤ a.userRatingsTotal)))

theorem keyLeB_eq_true (a b : Place) :
    keyLeB a b = true ↔ tripleLe (sort_key a) (sort_key b) :=
  @decide_eq_true_iff _ (Classical.propDecidable _)

theorem keyLeB_iff (a b : Place) : keyLeB a b = true ↔ specDescLe a b := by
  rw [keyLeB_eq_true]
  unfold tripleLe sort_key specDescLe
  simp only [neg_lt_neg_iff, neg_inj, neg_le_neg_iff, Nat.cast_le, Nat.cast_inj]

theorem tripleLe_trans {a b c : ℝ × ℚ × ℤ} (h1 : tripleLe a b) (h2 : tripleLe b c) :
    tripleLe a c := by
  unfold tripleLe at *
  rcases h1 with h1 | ⟨e1, h1'⟩
  · rcases h2 with h2 | ⟨e2, _⟩
    · exact Or.inl (lt_trans h1 h2)
    · exact Or.inl (e2 ▸ h1)
  · rcases h2 with h2 | ⟨e2, h2'⟩
    · exact Or.inl (e1 ▸ h2)
    · refine Or.inr ⟨e1.trans e2, ?_⟩
      rcases h1' with h1' | ⟨f1, g1⟩
      · rcases h2' with h2' | ⟨f2, _⟩
        · exact Or.inl (lt_trans h1' h2')
        · exact Or.inl (f2 ▸ h1')
      · rcases h2' with h2' | ⟨f2, g2⟩
        · exact Or.inl (f1 ▸ h2')
        · exact Or.inr ⟨f1.trans f2, le_trans g1 g2⟩

theorem tripleLe_total (a b : ℝ × ℚ × ℤ) : tripleLe a b ∨ tripleLe b a := by
  unfold tripleLe
  rcases lt_trichotomy a.1 b.1 with h | h | h
  · exact Or.inl (Or.inl h)
  · rcases lt_trichotomy a.2.1 b.2.1 with h' | h' | h'
    · exact Or.inl (Or.inr ⟨h, Or.inl h'⟩)
    · rcases le_total a.2.2 b.2.2 with h'' | h''
      · exact Or.inl (Or.inr ⟨h, Or.inr ⟨h', h''⟩⟩)
      · exact Or.inr (Or.inr ⟨h.symm, Or.inr ⟨h'.symm, h''⟩⟩)
    · exact Or.inr (Or.inr ⟨h.symm, Or.inl h'⟩)
  · exact Or.inr (Or.inl h)

theorem keyLeB_trans : ∀ a b c : Place, keyLeB a b → keyLeB b c → keyLeB a c := by
  intro a b c h1 h2
  rw [keyLeB_eq_true] at *
  exact tripleLe_trans h1 h2

theorem keyLeB_total : ∀ a b : Place, keyLeB a b || keyLeB b a := by
  intro a b
  rw [Bool.or_eq_true, keyLeB_eq_true, keyLeB_eq_true]
  exact tripleLe_total _ _

theorem specDescLe_refl (a : Place) : specDescLe a a :=
  Or.inr ⟨rfl, Or.inr ⟨rfl, le_rfl⟩⟩

/-- C6: `sort_places_by_quality` returns a permutation of its input, ordered
descending lexicographically by `(calculate_score, rating, review_count)`,
keeps insertion order for fully tied elements, and leaves an already-sorted
list unchanged. -/
theorem sort_places_by_quality_spec (l : List Place) :
    (sort_places_by_quality l).Perm l ∧
    (sort_places_by_quality l).Pairwise specDescLe ∧
    (∀ a b : Place, sort_key a = sort_key b → [a, b] <+ l →
      [a, b] <+ sort_places_by_quality l) ∧
    (l.Pairwise specDescLe → sort_places_by_quality l = l) := by
  refine ⟨List.mergeSort_perm l keyLeB, ?_, ?_, ?_⟩
  · exact (List.sorted_mergeSort keyLeB_trans keyLeB_total l).imp
      (fun h => (keyLeB_iff _ _).mp h)
  · intro a b hk hsub
    refine List.pair_sublist_mergeSort keyLeB_trans keyLeB_total ?_ hsub
    show keyLeB a b = true
    rw [keyLeB_eq_true, hk]
    unfold tripleLe
    exact Or.inr ⟨rfl, Or.inr ⟨rfl, le_rfl⟩⟩
  · intro hsorted
    exact List.mergeSort_of_sorted (hsorted.imp (fun h => (keyLeB_iff _ _).mpr h))

/-- Concrete instantiation of `sort_places_by_quality_spec` on a two-element
fully tied list. -/
theorem sort_places_by_quality_witness :
    (sort_places_by_quality [⟨some "w", "w", some 4, 100, [], "w"⟩,
        ⟨some "w", "w", some 4, 100, [], "w"⟩]).Perm
      [⟨some "w", "w", some 4, 100, [], "w"⟩,
        ⟨some "w", "w", some 4, 100, [], "w"⟩] ∧
    [(⟨some "w", "w", some 4, 100, [], "w"⟩ : Place),
        ⟨some "w", "w", some 4, 100, [], "w"⟩] <+
      sort_places_by_quality [⟨some "w", "w", some 4, 100, [], "w"⟩,
        ⟨some "w", "w", some 4, 100, [], "w"⟩] ∧
    sort_places_by_quality [⟨some "w", "w", some 4, 100, [], "w"⟩,
        ⟨some "w", "w", some 4, 100, [], "w"⟩] =
      [⟨some "w", "w", some 4, 100, [], "w"⟩,
        ⟨some "w", "w", some 4, 100, [], "w"⟩] := by
  have h := sort_places_by_quality_spec
    [⟨some "w", "w", some 4, 100, [], "w"⟩, ⟨some "w", "w", some 4, 100, [], "w"⟩]
  refine ⟨h.1, ?_, ?_⟩
  · exact h.2.2.1 _ _ rfl (List.Sublist.refl _)
  · refine h.2.2.2 ?_
    rw [List.pairwise_pair]
    exact specDescLe_refl _

/-! ## ContextManager (src/services/context_manager.py lines 12-31) -/

/-- A conversation-history entry as built by `ContextManager.add_message`. -/
structure ConversationMessage where
  role : String
  content : String
  timestamp : String
  metadata : List (String × String)
deriving DecidableEq

/-- Embedding of `ContextManager.add_message`.  The timestamp the Python
code generates with `datetime.now().isoformat()` is passed explicitly.
Appends the message and keeps only the last 20 entries when the log
exceeds 20. -/
def add_message (history : List ConversationMessage) (role content : String)
    (metadata : Option (List (String × String))) (timestamp : String) :
    List ConversationMessage :=
  let message : ConversationMessage :=
    { role := role, content := content, timestamp := timestamp,
      metadata := metadata.getD [] }
  let h := history ++ [message]
  if 20 < h.length then h.drop (h.length - 20) else h

/-- Embedding of `ContextManager.get_context_messages`: the last 10 entries
reduced to `(role, content)`, in chronological order. -/
def get_context_messages (history : List ConversationMessage) :
    List (String × String) :=
  (history.drop (history.length - 10)).map (fun m => (m.role, m.content))

/-- Arguments of one `add_message` call: role, content, metadata,
generated timestamp. -/
abbrev RecordCall := String × String × Option (List (String × String)) × String

/-- The message record a single `add_message` call appends. -/
def mkMessage (c : RecordCall) : ConversationMessage :=
  ⟨c.1, c.2.1, c.2.2.2, (c.2.2.1).getD []⟩

/-- A sequence of `add_message` calls starting from an empty history. -/
def run_record_calls (calls : List RecordCall) : List ConversationMessage :=
  calls.foldl (fun h c => add_message h c.1 c.2.1 c.2.2.1 c.2.2.2) []

theorem add_message_eq_rtake (history : List ConversationMessage)
    (r c : String) (md : Option (List (String × String))) (ts : String) :
    add_message history r c md ts =
      (history ++ [mkMessage (r, c, md, ts)]).rtake 20 := by
  simp only [add_message, mkMessage, rtake]
  split
  · rfl
  · rename_i hle
    rw [Nat.sub_eq_zero_of_le (Nat.le_of_not_lt hle), List.drop_zero]

theorem add_message_length (history : List ConversationMessage)
    (r c : String) (md : Option (List (String × String))) (ts : String) :
    (add_message history r c md ts).length = min (history.length + 1) 20 := by
  simp only [add_message]
  split
  · rename_i hgt
    rw [List.length_drop]
    simp only [List.length_append, List.length_singleton] at *
    omega
  · rename_i hle
    simp only [List.length_append, List.length_singleton] at *
    omega

theorem take_append_take {α : Type} (k : ℕ) (x y : List α) :
    (x ++ y.take k).take k = (x ++ y).take k := by
  rw [List.take_append_eq_append_take, List.take_append_eq_append_take,
    List.take_take, Nat.min_eq_left (Nat.sub_le k x.length)]

theorem rtake_rtake_append (k : ℕ) (a b : List ConversationMessage) :
    ((a.rtake k) ++ b).rtake k = (a ++ b).rtake k := by
  rw [List.rtake_eq_reverse_take_reverse, List.rtake_eq_reverse_take_reverse,
    List.rtake_eq_reverse_take_reverse]
  rw [List.reverse_append, List.reverse_append, List.reverse_reverse]
  rw [take_append_take]

theorem run_record_calls_from (calls : List RecordCall) :
    ∀ h : List ConversationMessage, h.length ≤ 20 →
      calls.foldl (fun acc c => add_message acc c.1 c.2.1 c.2.2.1 c.2.2.2) h =
        (h ++ calls.map mkMessage).rtake 20 := by
  induction calls with
  | nil =>
    intro h hle
    simp only [List.foldl_nil, List.map_nil, List.append_nil]
    unfold rtake
    rw [Nat.sub_eq_zero_of_le hle, List.drop_zero]
  | cons c cs ih =>
    intro h hle
    rw [List.foldl_cons, ih _ (by rw [add_message_length]; omega),
      add_message_eq_rtake, rtake_rtake_append, List.map_cons]
    rw [List.append_assoc]
    rfl

/-- C5: `add_message` never lets the log exceed 20 entries: the log length
is `min (previous + 1) 20` after every call, with the oldest entries dropped
first; after 25 calls from empty the log is exactly the last 20 messages,
and `get_context_messages` is the 10 most recent in order, reduced to role
and content. -/
theorem context_manager_bounds (calls : List RecordCall)
    (h25 : calls.length = 25) :
    (∀ (history : List ConversationMessage) (r c : String)
        (md : Option (List (String × String))) (ts : String),
      (add_message history r c md ts).length = min (history.length + 1) 20) ∧
    run_record_calls calls = (calls.map mkMessage).drop 5 ∧
    (run_record_calls calls).length = 20 ∧
    get_context_messages (run_record_calls calls) =
      ((calls.map mkMessage).drop 15).map (fun m => (m.role, m.content)) := by
  have hfold : run_record_calls calls = (calls.map mkMessage).rtake 20 := by
    unfold run_record_calls
    rw [run_record_calls_from calls [] (by simp)]
    rfl
  have hlenmap : (calls.map mkMessage).length = 25 := by
    rw [List.length_map, h25]
  have hdrop : run_record_calls calls = (calls.map mkMessage).drop 5 := by
    rw [hfold]
    unfold rtake
    rw [hlenmap]
  have hlen : (run_record_calls calls).length = 20 := by
    rw [hdrop, List.length_drop, hlenmap]
  refine ⟨add_message_length, hdrop, hlen, ?_⟩
  unfold get_context_messages
  rw [hlen, hdrop, List.drop_drop]

/-- Concrete instantiation of `context_manager_bounds` on 25 identical
record calls. -/
theorem context_manager_bounds_witness :
    run_record_calls (List.replicate 25 ("user", "m", none, "t")) =
      ((List.replicate 25 ("user", "m", none, "t")).map mkMessage).drop 5 ∧
    (run_record_calls (List.replicate 25 ("user", "m", none, "t"))).length = 20 ∧
    get_context_messages
        (run_record_calls (List.replicate 25 ("user", "m", none, "t"))) =
      (((List.replicate 25 ("user", "m", none, "t")).map mkMessage).drop 15).map
        (fun m => (m.role, m.content)) := by
  have h := context_manager_bounds (List.replicate 25 ("user", "m", none, "t"))
    (by simp)
  exact ⟨h.2.1, h.2.2.1, h.2.2.2⟩

/-! ## PlaceFilter.filter_by_category (src/services/place_filter.py lines 4-47) -/

/-- Lower-casing of a Python string (`str.lower()` on the ASCII data the
configuration uses), as a character list. -/
def lowerChars (s : String) : List Char := s.data.map Char.toLower

/-- The combined text blob `f"{name} {' '.join(types)} {vicinity}"` with
name, each type, and vicinity lower-cased. -/
def combined_text (p : Place) : List Char :=
  lowerChars p.name ++ [' '] ++
    List.intercalate [' '] (p.types.map lowerChars) ++ [' '] ++ lowerChars p.vicinity

/-- Executable check that `needle` is a prefix of `hay`. -/
def prefixCheck : List Char → List Char → Bool
  | [], _ => true
  | _ :: _, [] => false
  | c :: cs, h :: hs => c == h && prefixCheck cs hs

/-- Executable check of Python's substring operator `needle in hay`. -/
def substringCheck (needle : List Char) : List Char → Bool
  | [] => needle.isEmpty
  | h :: hs => prefixCheck needle (h :: hs) || substringCheck needle hs

theorem prefixCheck_iff : ∀ n h : List Char, prefixCheck n h = true ↔ n <+: h
  | [], h => by simp [prefixCheck]
  | c :: cs, [] => by simp [prefixCheck]
  | c :: cs, h :: hs => by
    rw [prefixCheck, Bool.and_eq_true, beq_iff_eq, List.cons_prefix_cons,
      prefixCheck_iff cs hs]

theorem substringCheck_iff (n : List Char) :
    ∀ h : List Char, substringCheck n h = true ↔ n <:+: h := by
  intro h
  induction h with
  | nil => simp [substringCheck, List.isEmpty_iff]
  | cons c hs ih =>
    rw [substringCheck, Bool.or_eq_true, prefixCheck_iff, ih,
      List.infix_cons_iff]

/-- Per-category include / exclude keyword lists. -/
structure CategoryFilterRule where
  includeKeywords : List String
  excludeKeywords : List String
deriving DecidableEq

/-- Embedding of `PlaceFilter._get_category_type_mapping().get(category, [])`. -/
def category_type_mapping (category : String) : List String :=
  if category = "tourist_places" then
    ["tourist_attraction", "museum", "park", "zoo", "amusement_park",
      "aquarium", "art_gallery", "hindu_temple", "natural_feature", "campground"]
  else if category = "restaurants" then
    ["restaurant", "meal_takeaway", "cafe", "bakery", "bar", "food"]
  else if category = "activities" then
    ["spa", "bowling_alley", "movie_theater", "night_club", "stadium",
      "tourist_attraction", "amusement_park", "park", "zoo", "aquarium",
      "casino", "movie_rental"]
  else if category = "hotels" then
    ["lodging", "campground", "rv_park"]
  else []

/-- The per-place test of the `filter_by_category` loop body: reject when
any exclude keyword occurs in the combined text, otherwise accept when an
include keyword occurs, a place type is among the category's relevant
provider types, or the category is tourist_places and the rating is at
least 4.0. -/
def place_pass (category : String) (filters : CategoryFilterRule) (p : Place) :
    Bool :=
  let text := combined_text p
  let types := p.types.map lowerChars
  let should_exclude :=
    filters.excludeKeywords.any (fun kw => substringCheck kw.data text)
  if should_exclude then false
  else
    let matchesInclude :=
      filters.includeKeywords.any (fun kw => substringCheck kw.data text)
    let matchesTypes :=
      (category_type_mapping category).any (fun t => decide (t.data ∈ types))
    let matchesTourist :=
      decide (category = "tourist_places") && decide ((4 : ℚ) ≤ p.rating.getD 0)
    matchesInclude || matchesTypes || matchesTourist

/-- Embedding of `PlaceFilter.filter_by_category`.  A category absent from
the configuration short-circuits to returning the input unchanged. -/
def filter_by_category (places : List Place) (category : String)
    (category_filters : String → Option CategoryFilterRule) : List Place :=
  match category_filters category with
  | none => places
  | some filters => places.filter (place_pass category filters)

/-- The concrete filter configuration
(`PlaceSearchConfig.get_category_filters` /
`GooglePlacesService.search_places`). -/
def category_filters_config (category : String) : Option CategoryFilterRule :=
  if category = "tourist_places" then
    some ⟨["tourist", "attraction", "museum", "park", "temple", "church",
        "monument", "heritage", "scenic", "viewpoint", "fort", "palace"],
      ["restaurant", "hotel", "lodge", "food", "cafe", "bar", "gym",
        "hospital", "bank", "university", "travel_agency"]⟩
  else if category = "restaurants" then
    some ⟨["restaurant", "cafe", "food", "dining", "kitchen", "bistro",
        "eatery", "cuisine"],
      ["hotel", "lodge", "hospital", "gym", "temple", "museum",
        "university", "travel_agency"]⟩
  else if category = "activities" then
    some ⟨["activity", "adventure", "sports", "recreation", "entertainment",
        "club", "center", "studio"],
      ["hotel", "restaurant", "spa", "food", "lodge", "hospital", "bank",
        "university", "hindu_temple", "church", "mosque", "travel_agency"]⟩
  else if category = "hotels" then
    some ⟨["hotel", "resort", "lodge", "accommodation", "stay", "inn",
        "guest house"],
      ["restaurant", "cafe", "food", "hospital", "gym", "temple",
        "museum", "university", "travel_agency"]⟩
  else none

theorem place_pass_no_exclude (category : String) (f : CategoryFilterRule)
    (p : Place) (hpass : place_pass category f p = true) :
    ∀ kw ∈ f.excludeKeywords, ¬ (kw.data <:+: combined_text p) := by
  intro kw hkw
  by_cases hex : f.excludeKeywords.any
      (fun kw => substringCheck kw.data (combined_text p)) = true
  · exfalso
    simp only [place_pass, hex, if_true] at hpass
    exact Bool.false_ne_true hpass
  · rw [Bool.not_eq_true, List.any_eq_false] at hex
    intro hinf
    exact hex kw hkw (by rwa [substringCheck_iff])

/-- C7: for every category present in the filter configuration,
`filter_by_category` preserves order (its result is a sublist of the input)
and never returns a place whose combined lowercase text contains an exclude
keyword of the category. -/
theorem filter_by_category_excludes (places : List Place) (category : String)
    (cf : String → Option CategoryFilterRule) (f : CategoryFilterRule)
    (hcf : cf category = some f) :
    filter_by_category places category cf <+ places ∧
    ∀ p ∈ filter_by_category places category cf,
      ∀ kw ∈ f.excludeKeywords, ¬ (kw.data <:+: combined_text p) := by
  unfold filter_by_category
  rw [hcf]
  refine ⟨List.filter_sublist places, ?_⟩
  intro p hp
  exact place_pass_no_exclude category f p (List.mem_filter.mp hp).2

/-- Concrete instantiation of `filter_by_category_excludes`: the spec's
"City Hospital Cafe" scenario — the place is rejected for `restaurants`
regardless of its 5.0 rating, because "hospital" is an exclude keyword. -/
theorem filter_by_category_excludes_witness :
    filter_by_category
        [⟨some "h1", "City Hospital Cafe", some 5, 500, ["cafe"], "Main Street"⟩]
        "restaurants" category_filters_config = [] := by
  have h := filter_by_category_excludes
    [⟨some "h1", "City Hospital Cafe", some 5, 500, ["cafe"], "Main Street"⟩]
    "restaurants" category_filters_config
    ⟨["restaurant", "cafe", "food", "dining", "kitchen", "bistro",
        "eatery", "cuisine"],
      ["hotel", "lodge", "hospital", "gym", "temple", "museum",
        "university", "travel_agency"]⟩ rfl
  cases hres : filter_by_category
      [⟨some "h1", "City Hospital Cafe", some 5, 500, ["cafe"], "Main Street"⟩]
      "restaurants" category_filters_config with
  | nil => rfl
  | cons q qs =>
    exfalso
    have hq : q ∈ filter_by_category
        [⟨some "h1", "City Hospital Cafe", some 5, 500, ["cafe"], "Main Street"⟩]
        "restaurants" category_filters_config := by
      rw [hres]
      exact List.mem_cons_self q qs
    have hqmem : q ∈
        [(⟨some "h1", "City Hospital Cafe", some 5, 500, ["cafe"], "Main Street"⟩ : Place)] :=
      (h.1.subset) hq
    have hqeq : q =
        (⟨some "h1", "City Hospital Cafe", some 5, 500, ["cafe"], "Main Street"⟩ : Place) := by
      simpa using hqmem
    have hno := h.2 q hq "hospital" (by decide)
    rw [hqeq] at hno
    exact hno ((substringCheck_iff _ _).mp (by decide))

/-- C8: a tourist_places place with rating at least 4.0 and no exclude
keyword in its text is accepted even with no include-keyword or type match,
and no other category has this carve-out: for any other configured
category, a place matching no include keyword and no relevant provider type
is rejected regardless of rating. -/
theorem tourist_places_carveout :
    (∀ (cf : String → Option CategoryFilterRule) (f : CategoryFilterRule)
        (p : Place),
      cf "tourist_places" = some f →
      (∀ kw ∈ f.excludeKeywords, ¬ (kw.data <:+: combined_text p)) →
      (4 : ℚ) ≤ p.rating.getD 0 →
      filter_by_category [p] "tourist_places" cf = [p]) ∧
    (∀ (cf : String → Option CategoryFilterRule) (category : String)
        (f : CategoryFilterRule) (q : Place),
      category ≠ "tourist_places" →
      cf category = some f →
      (∀ kw ∈ f.includeKeywords, ¬ (kw.data <:+: combined_text q)) →
      (∀ t ∈ category_type_mapping category, t.data ∉ q.types.map lowerChars) →
      filter_by_category [q] category cf = []) := by
  constructor
  · intro cf f p hcf hnoex hrating
    unfold filter_by_category
    rw [hcf]
    have hpass : place_pass "tourist_places" f p = true := by
      simp only [place_pass]
      have hex : f.excludeKeywords.any
          (fun kw => substringCheck kw.data (combined_text p)) = false := by
        rw [List.any_eq_false]
        intro kw hkw hc
        exact hnoex kw hkw ((substringCheck_iff _ _).mp hc)
      rw [hex]
      simp [hrating]
    simp [List.filter, hpass]
  · intro cf category f q hne hcf hninc hntyp
    unfold filter_by_category
    rw [hcf]
    have hpass : place_pass category f q = false := by
      simp only [place_pass]
      by_cases hex : f.excludeKeywords.any
          (fun kw => substringCheck kw.data (combined_text q)) = true
      · rw [hex]
        simp
      · rw [Bool.not_eq_true] at hex
        rw [hex]
        simp only [Bool.false_eq_true, if_false, Bool.or_eq_false_iff]
        refine ⟨⟨?_, ?_⟩, ?_⟩
        · rw [List.any_eq_false]
          intro kw hkw hc
          exact hninc kw hkw ((substringCheck_iff _ _).mp hc)
        · rw [List.any_eq_false]
          intro t ht
          simp only [decide_eq_true_eq]
          exact hntyp t ht
        · simp [hne]
    simp [List.filter, hpass]

/-- Concrete instantiation of `tourist_places_carveout`: a 4.5-rated place
with no matching keyword or type is kept for tourist_places but dropped for
restaurants. -/
theorem tourist_places_carveout_witness :
    filter_by_category
        [⟨some "t1", "Sunset Ridge", some (9/2), 200, ["establishment"], "Hilltop Road"⟩]
        "tourist_places" category_filters_config =
      [⟨some "t1", "Sunset Ridge", some (9/2), 200, ["establishment"], "Hilltop Road"⟩] ∧
    filter_by_category
        [⟨some "t1", "Sunset Ridge", some (9/2), 200, ["establishment"], "Hilltop Road"⟩]
        "restaurants" category_filters_config = [] := by
  constructor
  · exact tourist_places_carveout.1 category_filters_config
      ⟨["tourist", "attraction", "museum", "park", "temple", "church",
          "monument", "heritage", "scenic", "viewpoint", "fort", "palace"],
        ["restaurant", "hotel", "lodge", "food", "cafe", "bar", "gym",
          "hospital", "bank", "university", "travel_agency"]⟩
      ⟨some "t1", "Sunset Ridge", some (9/2), 200, ["establishment"], "Hilltop Road"⟩
      rfl (by simp only [← substringCheck_iff]; decide) (by norm_num)
  · exact tourist_places_carveout.2 category_filters_config "restaurants"
      ⟨["restaurant", "cafe", "food", "dining", "kitchen", "bistro",
          "eatery", "cuisine"],
        ["hotel", "lodge", "hospital", "gym", "temple", "museum",
          "university", "travel_agency"]⟩
      ⟨some "t1", "Sunset Ridge", some (9/2), 200, ["establishment"], "Hilltop Road"⟩
      (by decide) rfl (by simp only [← substringCheck_iff]; decide) (by decide)

/-! ## GooglePlacesService.search_places (src/services/google_places_service.py
lines 172-287) -/

/-- Error classes of the geo-search provider. -/
inductive ProviderError where
  | quotaExceeded
  | transientError
  | permissionDenied
  | invalidRequest
deriving DecidableEq

/-- Embedding of the per-query-term loop of `search_places` (lines 250-260):
for each term the provider is called once inside `try`; any exception is
logged and the term skipped (`continue`).  The second component is the trace
of provider calls made, in order. -/
def search_each_term (provider : String → Except ProviderError (List Place)) :
    List String → List Place × List String
  | [] => ([], [])
  | q :: qs =>
    let rest := search_each_term provider qs
    match provider q with
    | .ok rs => (rs ++ rest.1, q :: rest.2)
    | .error _ => (rest.1, q :: rest.2)

/-- Modelled from the spec: retry-with-exponential-backoff around one
nearby-search term — quota/transient errors are retried with the base delay
doubling per attempt up to a fixed attempt cap (`fuel`), while
permission-denied and invalid-request errors are returned immediately.
This machinery is absent from `src/services/google_places_service.py`. -/
def spec_call_with_backoff (call : ℕ → Except ProviderError (List Place)) :
    ℕ → ℕ → Except ProviderError (List Place)
  | attempt, 0 => call attempt
  | attempt, fuel + 1 =>
    match call attempt with
    | .ok rs => .ok rs
    | .error .permissionDenied => .error .permissionDenied
    | .error .invalidRequest => .error .invalidRequest
    | .error _ => spec_call_with_backoff call (attempt + 1) fuel

/-- Modelled from the spec: the per-term search loop in which permanent
errors (permission denied, invalid request) propagate as exceptions to the
caller and exhausted transient retries are logged and skipped.  This is
what the claim asserts `search_places` does. -/
def spec_search_each_term
    (provider : String → ℕ → Except ProviderError (List Place)) (cap : ℕ) :
    List String → Except ProviderError (List Place)
  | [] => .ok []
  | q :: qs =>
    match spec_call_with_backoff (provider q) 0 cap with
    | .ok rs => (spec_search_each_term provider cap qs).map (fun rest => rs ++ rest)
    | .error .permissionDenied => .error .permissionDenied
    | .error .invalidRequest => .error .invalidRequest
    | .error _ => spec_search_each_term provider cap qs

/-- C2 counterexample: with a provider whose sole term raises
permission-denied, the embedded `search_places` loop completes normally
(empty accumulation, exactly one provider call — no exception reaches the
caller), and with a quota-raising provider the term is likewise called
exactly once (no retry); the spec-modelled loop instead propagates the
permission error.  This refutes the claim that permission-denied errors
propagate to the caller and that quota errors are retried with backoff. -/
theorem search_each_term_counterexample :
    search_each_term (fun _ => .error .permissionDenied) ["restaurant"] =
      ([], ["restaurant"]) ∧
    search_each_term (fun _ => .error .quotaExceeded) ["restaurant"] =
      ([], ["restaurant"]) ∧
    spec_search_each_term (fun _ _ => .error .permissionDenied) 3 ["restaurant"] =
      .error .permissionDenied :=
  ⟨rfl, rfl, rfl⟩

/-- C2 amended: the per-term loop calls the provider exactly once per query
term (no rate-limiter gating, no retry), and every provider error — quota,
transient, permission-denied and invalid-request alike — is caught and the
term skipped, so no provider error ever reaches the caller: the result is
always the concatenation of the successful terms' results. -/
theorem search_each_term_amended
    (provider : String → Except ProviderError (List Place))
    (queries : List String) :
    (search_each_term provider queries).2 = queries ∧
    (search_each_term provider queries).1 =
      (queries.map (fun q => (provider q).toOption.getD [])).flatten := by
  induction queries with
  | nil => exact ⟨rfl, rfl⟩
  | cons q qs ih =>
    unfold search_each_term
    cases hq : provider q with
    | ok rs =>
      simp only [hq, List.map_cons, List.flatten_cons]
      exact ⟨by rw [ih.1], by rw [ih.2]; rfl⟩
    | error e =>
      simp only [hq, List.map_cons, List.flatten_cons]
      exact ⟨by rw [ih.1], by rw [ih.2]; rfl⟩

/-! ## De-duplication by place_id (lines 262-267) -/

/-- Embedding of the `unique_results` dictionary loop: walk the accumulated
places, keeping a place only when its `place_id` is truthy (present and
non-empty) and not seen before.  `seen` is the set of ids already inserted;
insertion order of a Python dict preserves first occurrence. -/
def dedup_places_aux : List Place → List String → List Place
  | [], _ => []
  | p :: ps, seen =>
    match p.placeId with
    | none => dedup_places_aux ps seen
    | some pid =>
      if pid = "" then dedup_places_aux ps seen
      else if pid ∈ seen then dedup_places_aux ps seen
      else p :: dedup_places_aux ps (pid :: seen)

/-- De-duplication of the accumulated results, as `search_places` performs
it before filtering. -/
def dedup_places (l : List Place) : List Place := dedup_places_aux l []

/-- Embedding of the whole `search_places` pipeline after geocoding:
accumulate per-term results, de-duplicate by place_id, filter by category,
sort by quality, truncate to `max_results`. -/
noncomputable def search_places
    (provider : String → Except ProviderError (List Place))
    (queries : List String) (place_type : String)
    (category_filters : String → Option CategoryFilterRule)
    (max_results : ℕ) : List Place :=
  let all_results := (search_each_term provider queries).1
  let unique_results := dedup_places all_results
  let filtered_results := filter_by_category unique_results place_type category_filters
  let sorted_results := sort_places_by_quality filtered_results
  sorted_results.take max_results

theorem dedup_places_aux_sublist :
    ∀ (l : List Place) (seen : List String), dedup_places_aux l seen <+ l := by
  intro l
  induction l with
  | nil => intro seen; exact Sublist.refl []
  | cons p ps ih =>
    intro seen
    cases hid : p.placeId with
    | none =>
      simp only [dedup_places_aux, hid]
      exact (ih seen).cons p
    | some pid =>
      simp only [dedup_places_aux, hid]
      by_cases h1 : pid = ""
      · rw [if_pos h1]
        exact (ih seen).cons p
      · rw [if_neg h1]
        by_cases h2 : pid ∈ seen
        · rw [if_pos h2]
          exact (ih seen).cons p
        · rw [if_neg h2]
          exact (ih (pid :: seen)).cons₂ p

theorem dedup_places_aux_ids :
    ∀ (l : List Place) (seen : List String) (p : Place),
      p ∈ dedup_places_aux l seen →
      ∃ s : String, p.placeId = some s ∧ s ≠ "" ∧ s ∉ seen := by
  intro l
  induction l with
  | nil => intro seen p hp; exact absurd hp (List.not_mem_nil p)
  | cons q qs ih =>
    intro seen p hp
    cases hid : q.placeId with
    | none =>
      simp only [dedup_places_aux, hid] at hp
      exact ih seen p hp
    | some pid =>
      simp only [dedup_places_aux, hid] at hp
      by_cases h1 : pid = ""
      · rw [if_pos h1] at hp
        exact ih seen p hp
      · rw [if_neg h1] at hp
        by_cases h2 : pid ∈ seen
        · rw [if_pos h2] at hp
          exact ih seen p hp
        · rw [if_neg h2] at hp
          rcases List.mem_cons.mp hp with hqp | hrest
          · subst hqp
            exact ⟨pid, hid, h1, h2⟩
          · obtain ⟨s, hs, hne, hnotin⟩ := ih (pid :: seen) p hrest
            exact ⟨s, hs, hne, fun hmem => hnotin (List.mem_cons_of_mem pid hmem)⟩

theorem dedup_places_aux_nodup :
    ∀ (l : List Place) (seen : List String),
      ((dedup_places_aux l seen).map Place.placeId).Nodup := by
  intro l
  induction l with
  | nil => intro seen; exact List.nodup_nil
  | cons q qs ih =>
    intro seen
    cases hid : q.placeId with
    | none =>
      simp only [dedup_places_aux, hid]
      exact ih seen
    | some pid =>
      simp only [dedup_places_aux, hid]
      by_cases h1 : pid = ""
      · rw [if_pos h1]
        exact ih seen
      · rw [if_neg h1]
        by_cases h2 : pid ∈ seen
        · rw [if_pos h2]
          exact ih seen
        · rw [if_neg h2]
          rw [List.map_cons, List.nodup_cons]
          refine ⟨?_, ih (pid :: seen)⟩
          intro hmem
          rw [List.mem_map] at hmem
          obtain ⟨r, hr, hrid⟩ := hmem
          obtain ⟨s, hs, _, hnotin⟩ := dedup_places_aux_ids qs (pid :: seen) r hr
          rw [hs] at hrid
          rw [hid] at hrid
          have : s = pid := by
            injection hrid with h
          exact hnotin (List.mem_cons.mpr (Or.inl this))

theorem dedup_places_aux_first :
    ∀ (l : List Place) (seen : List String) (p : Place),
      p ∈ dedup_places_aux l seen →
      ∃ s : String, p.placeId = some s ∧
        l.find? (fun q => q.placeId == some s) = some p := by
  intro l
  induction l with
  | nil => intro seen p hp; exact absurd hp (List.not_mem_nil p)
  | cons q qs ih =>
    intro seen p hp
    obtain ⟨s, hs, hne, hnotin⟩ := dedup_places_aux_ids (q :: qs) seen p hp
    refine ⟨s, hs, ?_⟩
    cases hid : q.placeId with
    | none =>
      simp only [dedup_places_aux, hid] at hp
      rw [List.find?_cons_of_neg _ (by rw [hid]; simp)]
      obtain ⟨s', hs', hfind⟩ := ih seen p hp
      rw [hs'] at hs
      injection hs with hss
      rw [hss] at hfind
      exact hfind
    | some pid =>
      simp only [dedup_places_aux, hid] at hp
      by_cases h1 : pid = ""
      · rw [if_pos h1] at hp
        rw [List.find?_cons_of_neg _ (by
          rw [hid, h1]
          simp only [beq_iff_eq, Option.some.injEq]
          intro hc
          exact hne hc.symm)]
        obtain ⟨s', hs', hfind⟩ := ih seen p hp
        rw [hs'] at hs
        injection hs with hss
        rw [hss] at hfind
        exact hfind
      · rw [if_neg h1] at hp
        by_cases h2 : pid ∈ seen
        · rw [if_pos h2] at hp
          rw [List.find?_cons_of_neg _ (by
            rw [hid]
            simp only [beq_iff_eq, Option.some.injEq]
            intro hc
            exact hnotin (hc ▸ h2))]
          obtain ⟨s', hs', hfind⟩ := ih seen p hp
          rw [hs'] at hs
          injection hs with hss
          rw [hss] at hfind
          exact hfind
        · rw [if_neg h2] at hp
          rcases List.mem_cons.mp hp with hqp | hrest
          · subst hqp
            rw [hid] at hs
            injection hs with hss
            rw [List.find?_cons_of_pos _ (by rw [hid, hss]; simp)]
          · obtain ⟨s', hs', hnotin'⟩ := dedup_places_aux_ids qs (pid :: seen) p hrest
            have hss : s = s' := by
              rw [hs] at hs'
              exact Option.some_inj.mp hs'
            rw [List.find?_cons_of_neg _ (by
              rw [hid]
              simp only [beq_iff_eq, Option.some.injEq]
              intro hc
              exact hnotin'.2 (by
                rw [hss] at hc
                exact List.mem_cons.mpr (Or.inl hc.symm)))]
            obtain ⟨s'', hs'', hfind⟩ := ih (pid :: seen) p hrest
            rw [hs''] at hs
            injection hs with h2s
            rw [h2s] at hfind
            exact hfind

theorem filter_by_category_sublist (places : List Place) (category : String)
    (cf : String → Option CategoryFilterRule) :
    filter_by_category places category cf <+ places := by
  unfold filter_by_category
  cases cf category with
  | none => exact Sublist.refl places
  | some f => exact List.filter_sublist places

/-- C10: de-duplication keeps, for each distinct non-empty place_id, exactly
the first-encountered record; records with a missing or empty place_id are
dropped; and every place in the final `search_places` result carries a
distinct non-empty place_id. -/
theorem dedup_places_spec (l : List Place) :
    dedup_places l <+ l ∧
    (∀ p ∈ dedup_places l, ∃ s : String, p.placeId = some s ∧ s ≠ "") ∧
    ((dedup_places l).map Place.placeId).Nodup ∧
    (∀ p ∈ dedup_places l, ∃ s : String, p.placeId = some s ∧
      l.find? (fun q => q.placeId == some s) = some p) ∧
    (∀ (provider : String → Except ProviderError (List Place))
        (queries : List String) (place_type : String)
        (cf : String → Option CategoryFilterRule) (n : ℕ),
      ((search_places provider queries place_type cf n).map Place.placeId).Nodup ∧
      ∀ p ∈ search_places provider queries place_type cf n,
        ∃ s : String, p.placeId = some s ∧ s ≠ "") := by
  refine ⟨dedup_places_aux_sublist l [], ?_, dedup_places_aux_nodup l [], ?_, ?_⟩
  · intro p hp
    obtain ⟨s, hs, hne, _⟩ := dedup_places_aux_ids l [] p hp
    exact ⟨s, hs, hne⟩
  · intro p hp
    exact dedup_places_aux_first l [] p hp
  · intro provider queries place_type cf n
    have hfil : filter_by_category
        (dedup_places (search_each_term provider queries).1) place_type cf <+
        dedup_places (search_each_term provider queries).1 :=
      filter_by_category_sublist _ _ _
    have hperm : sort_places_by_quality
        (filter_by_category (dedup_places (search_each_term provider queries).1)
          place_type cf) ~
        filter_by_category (dedup_places (search_each_term provider queries).1)
          place_type cf :=
      List.mergeSort_perm _ keyLeB
    have htake : search_places provider queries place_type cf n <+
        sort_places_by_quality
          (filter_by_category (dedup_places (search_each_term provider queries).1)
            place_type cf) :=
      List.take_sublist n _
    constructor
    · have hnodup0 : ((dedup_places (search_each_term provider queries).1).map
          Place.placeId).Nodup := dedup_places_aux_nodup _ []
      have hnodup1 := hnodup0.sublist (hfil.map Place.placeId)
      have hnodup2 : ((sort_places_by_quality
          (filter_by_category (dedup_places (search_each_term provider queries).1)
            place_type cf)).map Place.placeId).Nodup :=
        ((hperm.map Place.placeId).nodup_iff).mpr hnodup1
      exact hnodup2.sublist (htake.map Place.placeId)
    · intro p hp
      have hp1 : p ∈ dedup_places (search_each_term provider queries).1 :=
        hfil.subset (hperm.subset (htake.subset hp))
      obtain ⟨s, hs, hne, _⟩ := dedup_places_aux_ids _ [] p hp1
      exact ⟨s, hs, hne⟩

/-- Concrete instantiation of `dedup_places_spec`: a result set with a
duplicated id, an empty id and a missing id. -/
theorem dedup_places_spec_witness :
    dedup_places [⟨some "a", "A1", some 4, 10, [], "x"⟩,
        ⟨some "a", "A2", some 3, 5, [], "y"⟩,
        ⟨some "", "X", none, 0, [], ""⟩,
        ⟨none, "N", none, 0, [], ""⟩] <+
      [⟨some "a", "A1", some 4, 10, [], "x"⟩,
        ⟨some "a", "A2", some 3, 5, [], "y"⟩,
        ⟨some "", "X", none, 0, [], ""⟩,
        ⟨none, "N", none, 0, [], ""⟩] ∧
    (∃ s : String,
      (⟨some "a", "A1", some 4, 10, [], "x"⟩ : Place).placeId = some s ∧ s ≠ "") ∧
    (∃ s : String,
      (⟨some "a", "A1", some 4, 10, [], "x"⟩ : Place).placeId = some s ∧
      ([⟨some "a", "A1", some 4, 10, [], "x"⟩,
          ⟨some "a", "A2", some 3, 5, [], "y"⟩,
          ⟨some "", "X", none, 0, [], ""⟩,
          ⟨none, "N", none, 0, [], ""⟩] : List Place).find?
          (fun q => q.placeId == some s) =
        some ⟨some "a", "A1", some 4, 10, [], "x"⟩) := by
  have h := dedup_places_spec [⟨some "a", "A1", some 4, 10, [], "x"⟩,
    ⟨some "a", "A2", some 3, 5, [], "y"⟩,
    ⟨some "", "X", none, 0, [], ""⟩,
    ⟨none, "N", none, 0, [], ""⟩]
  exact ⟨h.1, h.2.1 _ (by decide), h.2.2.2.1 _ (by decide)⟩

/-! ## AzureOpenAIService.generate_travel_recommendations
(src/services/azure_openai_service.py lines 99-136) -/

/-- The substrings of a lower-cased exception message that classify it as an
authentication error (line 120). -/
def auth_error_markers : List String :=
  ["unauthorized", "invalid_token", "token_expired", "authentication", "401"]

/-- Embedding of the auth-error test
`any(auth_error in error_message for ...)` on `str(e).lower()`. -/
def isAuthError (msg : String) : Bool :=
  auth_error_markers.any (fun kw => substringCheck kw.data (lowerChars msg))

/-- Result of a `generate_travel_recommendations` run: the returned string,
how many chat-completion calls were made, and how many forced token
refreshes (the `token_data["expires_at"] = 0` + new-client branch) ran. -/
structure GenOutcome where
  result : String
  providerCalls : ℕ
  forcedRefreshes : ℕ
deriving DecidableEq

/-- Embedding of the `for attempt in range(max_retries)` loop body.
`remaining` is the number of loop iterations left, `attempt` the Python
loop index; the chat-completion call is modelled by `call attempt` which
either returns content or raises an exception with the given message.  The
fall-through return after the loop is the "unexpected error" string. -/
def generate_loop (call : ℕ → Except String String) (max_retries : ℕ) :
    ℕ → ℕ → ℕ → ℕ → GenOutcome
  | 0, _, calls, refreshes =>
    ⟨"Sorry, I encountered an unexpected error. Please try again.",
      calls, refreshes⟩
  | remaining + 1, attempt, calls, refreshes =>
    match call attempt with
    | .ok content => ⟨content, calls + 1, refreshes⟩
    | .error e =>
      if isAuthError e then
        if attempt < max_retries - 1 then
          generate_loop call max_retries remaining (attempt + 1) (calls + 1)
            (refreshes + 1)
        else
          ⟨"Sorry, I encountered an authentication error. Please try again later.",
            calls + 1, refreshes⟩
      else
        ⟨"Sorry, I encountered an error generating recommendations: " ++ e,
          calls + 1, refreshes⟩

/-- Embedding of `generate_travel_recommendations` with the source's
`max_retries = 1`: a loop of at most one iteration starting at attempt 0. -/
def generate_travel_recommendations (call : ℕ → Except String String) :
    GenOutcome :=
  generate_loop call 1 1 0 0 0

/-- C3: evaluation at the failing input.  With `max_retries = 1` the guard
`attempt < max_retries - 1` is never true, so on an authentication error
the function returns the apology immediately after one provider call with
no forced refresh and no retry — contradicting the claim (and the code's
own log message "refreshing token and retrying").  With the evidently
intended `max_retries = 2` the same loop refreshes once and retries exactly
once.  Provider errors never escape: results are plain strings. -/
theorem generate_travel_recommendations_no_retry :
    generate_travel_recommendations (fun _ => .error "401 Unauthorized") =
      ⟨"Sorry, I encountered an authentication error. Please try again later.",
        1, 0⟩ ∧
    generate_loop (fun _ => .error "401 Unauthorized") 2 2 0 0 0 =
      ⟨"Sorry, I encountered an authentication error. Please try again later.",
        2, 1⟩ ∧
    generate_travel_recommendations (fun _ => .ok "recommendation text") =
      ⟨"recommendation text", 1, 0⟩ ∧
    generate_travel_recommendations (fun _ => .error "connection reset") =
      ⟨"Sorry, I encountered an error generating recommendations: " ++
        "connection reset", 1, 0⟩ := by
  decide

/-! ## RateLimiter.wait_if_needed (src/services/rate_limiter.py lines 19-55) -/

/-- State of the rate limiter: the two timestamp deques (front = oldest)
and the daily reset time. -/
structure RLState where
  requestsPerSecond : List ℚ
  requestsPerDay : List ℚ
  dailyResetTime : ℚ
deriving DecidableEq

/-- Embedding of `RateLimiter.wait_if_needed`, entered at wall-clock time
`t` (the `time.time()` read on entry).  Sleeping is modelled additively: a
later `time.time()` read returns `t` plus the sleep performed so far.
Returns the new state and the completion time.  The Python local
`current_time` is reassigned only in the per-second sleep branch, so the
timestamp recorded into both queues is the stale `t` unless that branch
runs — mirrored exactly here. -/
def wait_if_needed (maxSec maxDay : ℕ) (s : RLState) (t : ℚ) : RLState × ℚ :=
  let pd0 := if s.dailyResetTime ≤ t then [] else s.requestsPerDay
  let dr0 := if s.dailyResetTime ≤ t then t + 86400 else s.dailyResetTime
  let ps1 := s.requestsPerSecond.dropWhile (fun x => decide (1 ≤ t - x))
  let pd1 := pd0.dropWhile (fun x => decide (86400 ≤ t - x))
  let dayWait := 86400 - (t - pd1.headD 0)
  let pd2 := if maxDay ≤ pd1.length then [] else pd1
  let dr2 := if maxDay ≤ pd1.length then t + dayWait + 86400 else dr0
  let slept1 := if maxDay ≤ pd1.length then dayWait else 0
  let secWait := 1 - (t - ps1.headD 0)
  let secSleep := if maxSec ≤ ps1.length ∧ 0 < secWait then secWait else 0
  let current2 := if maxSec ≤ ps1.length ∧ 0 < secWait then t + slept1 + secWait
    else t
  (⟨ps1 ++ [current2], pd2 ++ [current2], dr2⟩, t + slept1 + secSleep)

/-- C4 counterexample: with `max_requests_per_second = 2`, three immediate
acquire calls from a freshly initialised limiter (daily reset a day away)
leave the per-second queue holding 3 > 2 timestamps: the blocked third
call sleeps until the window frees, but then appends without re-cleaning
the now-stale head entries. -/
theorem wait_if_needed_counterexample :
    (wait_if_needed 2 100 ⟨[], [], 86400⟩ 0).1 = ⟨[0], [0], 86400⟩ ∧
    (wait_if_needed 2 100 ⟨[0], [0], 86400⟩ 0).1 = ⟨[0, 0], [0, 0], 86400⟩ ∧
    (wait_if_needed 2 100 ⟨[0, 0], [0, 0], 86400⟩ 0).1.requestsPerSecond =
      [0, 0, 1] ∧
    ¬ ((wait_if_needed 2 100 ⟨[0, 0], [0, 0], 86400⟩
        0).1.requestsPerSecond.length ≤ 2) := by
  refine ⟨?_, ?_, ?_, ?_⟩
  · simp only [wait_if_needed]
    norm_num
  · simp only [wait_if_needed]
    norm_num [List.dropWhile]
  · simp only [wait_if_needed]
    norm_num [List.dropWhile]
  · simp only [wait_if_needed]
    norm_num [List.dropWhile]

/-- Invariant maintained by `wait_if_needed`: at completion time `T`, the
per-second queue is sorted, within `T`, holds at most `maxSec + 1`
timestamps — and when it does overflow to `maxSec + 1`, its head is at
least one second stale at `T`, so the next call's cleaning removes it —
and the per-day queue holds at most `maxDay` timestamps. -/
def RLInv (maxSec maxDay : ℕ) (T : ℚ) (s : RLState) : Prop :=
  s.requestsPerSecond.Sorted (· ≤ ·) ∧
  (∀ x ∈ s.requestsPerSecond, x ≤ T) ∧
  s.requestsPerSecond.length ≤ maxSec + 1 ∧
  (maxSec + 1 ≤ s.requestsPerSecond.length →
    ∀ x : ℚ, s.requestsPerSecond.head? = some x → 1 ≤ T - x) ∧
  s.requestsPerDay.length ≤ maxDay

/-- C4 amended: from any reachable state (the invariant holds of the fresh
state and is preserved), a completed `wait_if_needed` call leaves at most
`max_requests_per_second + 1` timestamps in the per-second queue and at
most `max_requests_per_day` in the per-day queue, never drops the request
(exactly one timestamp is appended, after cleaning), and completes at or
after the call time (a full window blocks by sleeping). -/
theorem wait_if_needed_spec (maxSec maxDay : ℕ) (s : RLState) (T t : ℚ)
    (hms : 1 ≤ maxSec) (hmd : 1 ≤ maxDay)
    (hinv : RLInv maxSec maxDay T s) (ht : T ≤ t) :
    RLInv maxSec maxDay (wait_if_needed maxSec maxDay s t).2
      (wait_if_needed maxSec maxDay s t).1 ∧
    t ≤ (wait_if_needed maxSec maxDay s t).2 ∧
    (wait_if_needed maxSec maxDay s t).1.requestsPerSecond.length ≤ maxSec + 1 ∧
    (wait_if_needed maxSec maxDay s t).1.requestsPerDay.length ≤ maxDay ∧
    (wait_if_needed maxSec maxDay s t).1.requestsPerSecond.length =
      (s.requestsPerSecond.dropWhile (fun x => decide (1 ≤ t - x))).length + 1 ∧
    (∀ T0 : ℚ, RLInv maxSec maxDay T0 ⟨[], [], T0 + 86400⟩) := by
  obtain ⟨hsort, hbound, hlen, hhead, hday⟩ := hinv
  have hinit : ∀ T0 : ℚ, RLInv maxSec maxDay T0 ⟨[], [], T0 + 86400⟩ := by
    intro T0
    refine ⟨List.sorted_nil, by simp, by simp, ?_, by simp⟩
    intro h x hx
    exact absurd h (by simp)
  simp only [wait_if_needed]
  set P1 : ℚ → Bool := fun x => decide (1 ≤ t - x) with hP1
  set ps1 := s.requestsPerSecond.dropWhile P1 with hps1def
  set P2 : ℚ → Bool := fun x => decide (86400 ≤ t - x) with hP2
  set pd0 := if s.dailyResetTime ≤ t then ([] : List ℚ) else s.requestsPerDay
    with hpd0def
  set pd1 := pd0.dropWhile P2 with hpd1def
  set slept1 := if maxDay ≤ pd1.length then 86400 - (t - pd1.headD 0) else 0
    with hslept1def
  set secWait := 1 - (t - ps1.headD 0) with hsecWaitdef
  set secSleep := if maxSec ≤ ps1.length ∧ 0 < secWait then secWait else 0
    with hsecSleepdef
  set current2 := if maxSec ≤ ps1.length ∧ 0 < secWait then t + slept1 + secWait
    else t with hcur2def
  -- facts about the cleaned per-second queue
  have hps1sub : ps1 <+ s.requestsPerSecond := List.dropWhile_sublist P1
  have hps1sorted : ps1.Sorted (· ≤ ·) := hsort.sublist hps1sub
  have hps1bound : ∀ x ∈ ps1, x ≤ t :=
    fun x hx => le_trans (hbound x (hps1sub.subset hx)) ht
  have hps1head : ∀ x : ℚ, ps1.head? = some x → ¬ (1 ≤ t - x) := by
    intro x hx
    have h3 := List.head?_dropWhile_not P1 s.requestsPerSecond
    rw [← hps1def, hx] at h3
    intro hc
    rw [hP1] at h3
    simp only [decide_eq_true_eq] at h3
    rw [decide_eq_false_iff_not] at h3
    exact h3 hc
  have hps1len : ps1.length ≤ maxSec := by
    rcases Nat.lt_or_ge s.requestsPerSecond.length (maxSec + 1) with hl | hl
    · have := hps1sub.length_le
      omega
    · have hEq := Nat.le_antisymm hlen hl
      cases hcase : s.requestsPerSecond with
      | nil =>
        rw [hcase] at hEq
        exact absurd hEq (by simp)
      | cons x0 rest =>
        have hx0 := hhead hl x0 (by rw [hcase]; rfl)
        have hpx0 : P1 x0 = true := by
          rw [hP1]
          simp only [decide_eq_true_eq]
          linarith
        have hstep : ps1 = rest.dropWhile P1 := by
          rw [hps1def, hcase, List.dropWhile_cons_of_pos hpx0]
        have h2 := (List.dropWhile_sublist (l := rest) P1).length_le
        have h4 : rest.length + 1 = s.requestsPerSecond.length := by
          rw [hcase]
          rfl
        rw [hstep]
        omega
  -- facts about the daily queue
  have hpd0len : pd0.length ≤ maxDay := by
    rw [hpd0def]
    split
    · simp
    · exact hday
  have hpd1len : pd1.length ≤ maxDay :=
    le_trans (List.dropWhile_sublist P2).length_le hpd0len
  have hpd1head : ∀ x : ℚ, pd1.head? = some x → ¬ (86400 ≤ t - x) := by
    intro x hx
    have h3 := List.head?_dropWhile_not P2 pd0
    rw [← hpd1def, hx] at h3
    intro hc
    rw [hP2] at h3
    simp only [decide_eq_true_eq] at h3
    rw [decide_eq_false_iff_not] at h3
    exact h3 hc
  have hs1 : 0 ≤ slept1 := by
    rw [hslept1def]
    split
    · rename_i hdf
      have hne : pd1 ≠ [] := by
        intro hnil
        rw [hnil] at hdf
        simp at hdf
        omega
      obtain ⟨y, ys, hyy⟩ := List.exists_cons_of_ne_nil hne
      have := hpd1head y (by rw [hyy]; rfl)
      have hhd : pd1.headD 0 = y := by rw [hyy]; rfl
      rw [hhd]
      linarith [lt_of_not_le this]
    · exact le_rfl
  have hpd2len : (if maxDay ≤ pd1.length then ([] : List ℚ) else pd1).length + 1 ≤
      maxDay := by
    split
    · simpa using hmd
    · rename_i h
      omega
  have hsecPos : maxSec ≤ ps1.length → 0 < secWait := by
    intro hfull
    have hne : ps1 ≠ [] := by
      intro hnil
      rw [hnil] at hfull
      simp at hfull
      omega
    obtain ⟨y, ys, hyy⟩ := List.exists_cons_of_ne_nil hne
    have := hps1head y (by rw [hyy]; rfl)
    have hhd : ps1.headD 0 = y := by rw [hyy]; rfl
    rw [hsecWaitdef, hhd]
    linarith [lt_of_not_le this]
  have hsS : 0 ≤ secSleep := by
    rw [hsecSleepdef]
    split
    · rename_i h
      exact le_of_lt h.2
    · exact le_rfl
  have hcur2ge : t ≤ current2 := by
    rw [hcur2def]
    split
    · rename_i h
      have := h.2
      linarith
    · exact le_rfl
  have hcur2le : current2 ≤ t + slept1 + secSleep := by
    rw [hcur2def, hsecSleepdef]
    split
    · exact le_rfl
    · linarith
  have hT2 : t ≤ t + slept1 + secSleep := by linarith
  refine ⟨⟨?_, ?_, ?_, ?_, ?_⟩, hT2, ?_, ?_, ?_, hinit⟩
  · -- sorted
    show List.Pairwise (· ≤ ·) (ps1 ++ [current2])
    rw [List.pairwise_append]
    refine ⟨hps1sorted, List.pairwise_singleton _ current2, ?_⟩
    intro a ha b hb
    rw [List.mem_singleton] at hb
    subst hb
    exact le_trans (hps1bound a ha) hcur2ge
  · -- bounded by completion time
    show ∀ x ∈ ps1 ++ [current2], x ≤ t + slept1 + secSleep
    intro x hx
    rcases List.mem_append.mp hx with hx | hx
    · exact le_trans (hps1bound x hx) hT2
    · rw [List.mem_singleton] at hx
      subst hx
      exact hcur2le
  · -- length bound
    show (ps1 ++ [current2]).length ≤ maxSec + 1
    rw [List.length_append, List.length_singleton]
    omega
  · -- stale head on overflow
    show maxSec + 1 ≤ (ps1 ++ [current2]).length → ∀ x : ℚ,
      (ps1 ++ [current2]).head? = some x → 1 ≤ (t + slept1 + secSleep) - x
    intro hover x hx
    rw [List.length_append, List.length_singleton] at hover
    have hfull : maxSec ≤ ps1.length := by omega
    have hne : ps1 ≠ [] := by
      intro hnil
      rw [hnil] at hfull
      simp at hfull
      omega
    obtain ⟨y, ys, hyy⟩ := List.exists_cons_of_ne_nil hne
    have hxy : x = y := by
      rw [hyy] at hx
      simp at hx
      exact hx.symm
    subst hxy
    have hnotold := hps1head x (by rw [hyy]; rfl)
    have hhd : ps1.headD 0 = x := by rw [hyy]; rfl
    have hsS2 : secSleep = secWait := by
      rw [hsecSleepdef, if_pos ⟨hfull, hsecPos hfull⟩]
    rw [hsS2, hsecWaitdef, hhd]
    linarith
  · -- per-day length bound
    show (((if maxDay ≤ pd1.length then ([] : List ℚ) else pd1)) ++
      [current2]).length ≤ maxDay
    rw [List.length_append, List.length_singleton]
    omega
  · -- per-second length bound, repeated at top level
    show (ps1 ++ [current2]).length ≤ maxSec + 1
    rw [List.length_append, List.length_singleton]
    omega
  · -- per-day length bound, repeated at top level
    show (((if maxDay ≤ pd1.length then ([] : List ℚ) else pd1)) ++
      [current2]).length ≤ maxDay
    rw [List.length_append, List.length_singleton]
    omega
  · -- exactly one timestamp appended after cleaning
    show (ps1 ++ [current2]).length = ps1.length + 1
    rw [List.length_append, List.length_singleton]

/-- Concrete instantiation of `wait_if_needed_spec` at a fresh limiter. -/
theorem wait_if_needed_spec_witness :
    RLInv 2 100 (wait_if_needed 2 100 ⟨[], [], 86400⟩ 0).2
      (wait_if_needed 2 100 ⟨[], [], 86400⟩ 0).1 ∧
    (0 : ℚ) ≤ (wait_if_needed 2 100 ⟨[], [], 86400⟩ 0).2 ∧
    (wait_if_needed 2 100 ⟨[], [], 86400⟩ 0).1.requestsPerSecond.length ≤ 3 ∧
    (wait_if_needed 2 100 ⟨[], [], 86400⟩ 0).1.requestsPerDay.length ≤ 100 := by
  have h := wait_if_needed_spec 2 100 ⟨[], [], 86400⟩ 0 0 (by norm_num)
    (by norm_num)
    ⟨List.sorted_nil, by simp, by simp, fun hc => absurd hc (by simp), by simp⟩
    le_rfl
  exact ⟨h.1, h.2.1, h.2.2.1, h.2.2.2.1⟩

end TravelBuddy
